import Mathlib

/-!
Shallow embedding of the word-guesser backend's round engine
(`src/services/gameService.ts`, with types from `src/types.ts` and the
constants from `src/constants.ts`), together with proofs checking the
specification's claims about role assignment, vote resolution, win
conditions, the white-hat guess, round advancement and the turn-cursor
invariant.

Conventions of the embedding:
- JavaScript strings are Lean `String`s; a JS object used as a map
  (`votes`, `voteCounts`) is an insertion-ordered association list with
  unique keys (`objGet` / `objSet` / `bumpCount` mirror property read,
  property assignment and `(m[k] || 0) + 1`).
- JS truthiness of a possibly-absent string property is `truthyStr`:
  `undefined` and `""` are falsy, every other string is truthy.
- `Math.random()`-driven choices are inputs: the Fisher–Yates shuffle in
  `assignRoles` takes the sequence of drawn indices as a function
  (`rand i % (i+1)` models `Math.floor(Math.random() * (i+1))`, which
  lies in `[0, i]`), and `array.sort(() => Math.random() - 0.5)` — whose
  only guarantee is that it returns SOME permutation of its input, the
  exact order being engine-defined — is modelled as an insertion sort
  driven by a stream of random comparison outcomes (`riSort`).
- Database rows read or written by the engine (`prisma.player`) are a
  `List DbPlayer`; the word-pair source (`getRandomWordPair`) is an
  `Option String` input holding the fresh pair's id, `none` when the
  catalogue is empty.
- A thrown exception is `Except.error`; the stored (Redis) game state
  after an operation is tracked explicitly, because the source only
  persists the in-memory mutations at its `setGameState` call sites.
-/

namespace WordGuesser

/-- Player roles, the `PlayerRole` enum of the prisma schema. The same
three tags are used as the `winner` strings of the source. -/
inductive PlayerRole where
  | CIVILIAN
  | BLACK_HAT
  | WHITE_HAT
deriving DecidableEq, Repr

/-- Round phases, the `phase` strings of `GameState`. -/
inductive Phase where
  | HINTING
  | VOTING
  | GUESSING
  | RESULT
deriving DecidableEq, Repr

/-- A clue record of `GameState.clues` (`ClueRecord` in `src/types.ts`);
`createdAt` is the epoch timestamp of the JS `Date`. -/
structure ClueRecord where
  playerId : String
  displayName : String
  content : String
  createdAt : Nat
deriving DecidableEq, Repr

/-- The per-room game session stored in Redis (`GameState` in
`src/types.ts`). `votes` is the voter-id to target-id object, kept as an
insertion-ordered association list. -/
structure GameState where
  roomId : String
  roundNumber : Nat
  phase : Phase
  turnOrder : List String
  currentTurnIndex : Nat
  clues : List ClueRecord
  votes : List (String × String)
  eliminatedPlayers : List String
  wordPairId : String
deriving DecidableEq, Repr

/-- A `player` row of the database as the engine reads it: id, assigned
role (null until game start) and the active flag. -/
structure DbPlayer where
  id : String
  role : Option PlayerRole
  isActive : Bool
deriving DecidableEq, Repr

/-- Result of `checkWinConditions`. -/
structure WinResult where
  gameOver : Bool
  winner : Option PlayerRole
deriving DecidableEq, Repr

/-- Result of `resolveVotes` (`RoundResolution` in the source); optional
fields of the TS object are `Option`s. -/
structure RoundResolution where
  eliminatedPlayerId : Option String
  eliminatedRole : Option PlayerRole
  isWhiteHat : Bool
  gameOver : Bool
  winner : Option PlayerRole
deriving DecidableEq, Repr

/-- Response of `submitWhiteHatGuess`; `correctWord`, `gameOver` and
`winner` are optional properties of the TS object, absent = `none`. -/
structure GuessResult where
  success : Bool
  correct : Bool
  correctWord : Option String
  gameOver : Option Bool
  winner : Option PlayerRole
deriving DecidableEq, Repr

/-- Response of `submitClue`: `nextPlayerId` when the turn passes on,
`votingStarted` when the cursor ran off the end of the turn order. -/
structure ClueResult where
  success : Bool
  nextPlayerId : Option String
  votingStarted : Bool
deriving DecidableEq, Repr

/-- Response of `submitVote`. -/
structure VoteResult where
  success : Bool
  allVoted : Option Bool
deriving DecidableEq, Repr

/-! GAME_CONFIG constants from `src/constants.ts`. -/

def MIN_PLAYERS : Nat := 4

def MAX_PLAYERS : Nat := 8

/-- White Hat only appears when more than 5 players (source comment). -/
def WHITE_HAT_MIN_PLAYERS : Nat := 6

/-! JS object and string helpers. -/

/-- Property read `m[k]` on a JS object used as a string map. -/
def objGet (m : List (String × String)) (k : String) : Option String :=
  (m.find? (fun e => e.1 == k)).map Prod.snd

/-- Property assignment `m[k] = v`: replaces the binding in place when
the key is present, appends it otherwise (JS insertion order). -/
def objSet (m : List (String × String)) (k v : String) : List (String × String) :=
  match m with
  | [] => [(k, v)]
  | (k0, v0) :: t => if k0 = k then (k, v) :: t else (k0, v0) :: objSet t k v

/-- JS truthiness of a possibly-absent string property: `undefined` and
the empty string are falsy. -/
def truthyStr : Option String → Bool
  | some s => s != ""
  | none => false

/-- Whitespace for `String.prototype.trim`: ASCII whitespace plus the
common Unicode space, line-separator and BOM code points. -/
def jsIsWhitespace (c : Char) : Bool :=
  c == ' ' || c == '\t' || c == '\n' || c == '\r' ||
  c.val == 11 || c.val == 12 || c.val == 0xA0 ||
  c.val == 0x2028 || c.val == 0x2029 || c.val == 0xFEFF

/-- Simple lowercase mapping of `String.prototype.toLowerCase` on the
Basic Latin and Latin-1 letter ranges (A–Z, and À–Þ except ×), which
cover the repository's Vietnamese word data written with precomposed
Latin-1 letters; other code points are unchanged. -/
def jsToLowerChar (c : Char) : Char :=
  if 0x41 ≤ c.val ∧ c.val ≤ 0x5A then Char.ofNat (c.toNat + 32)
  else if 0xC0 ≤ c.val ∧ c.val ≤ 0xDE ∧ c.val ≠ 0xD7 then Char.ofNat (c.toNat + 32)
  else c

/-- JS `s.trim()`: strip leading and trailing whitespace. -/
def jsTrim (s : List Char) : List Char :=
  ((s.dropWhile jsIsWhitespace).reverse.dropWhile jsIsWhitespace).reverse

/-- The guess normalization of `submitWhiteHatGuess`:
`s.trim().toLowerCase()`. -/
def jsNormalize (s : String) : String :=
  String.mk ((jsTrim s.data).map jsToLowerChar)

/-! Role assignment (`assignRoles`). -/

/-- The role list built by `assignRoles` before its shuffle: one
BLACK_HAT, one WHITE_HAT when `playerCount > WHITE_HAT_MIN_PLAYERS - 1`,
and `playerCount - roles.length` CIVILIANs. -/
def rolesBase (playerCount : Nat) : List PlayerRole :=
  let base :=
    if playerCount > WHITE_HAT_MIN_PLAYERS - 1 then
      [PlayerRole.BLACK_HAT, PlayerRole.WHITE_HAT]
    else
      [PlayerRole.BLACK_HAT]
  base ++ List.replicate (playerCount - base.length) PlayerRole.CIVILIAN

/-- The JS destructuring swap `[l[i], l[j]] = [l[j], l[i]]`; identity
when either index is out of bounds (never the case in the source loop). -/
def listSwap {α : Type} (l : List α) (i j : Nat) : List α :=
  match l.get? i, l.get? j with
  | some x, some y => (l.set i y).set j x
  | _, _ => l

/-- The Fisher–Yates loop `for (let i = n-1; i > 0; i--)` of
`assignRoles`: the constructor argument is the loop variable, and
`rand i % (i + 1)` models `Math.floor(Math.random() * (i + 1))`. -/
def fyLoop (rand : Nat → Nat) : Nat → List PlayerRole → List PlayerRole
  | 0, l => l
  | i + 1, l => fyLoop rand i (listSwap l (i + 1) (rand (i + 1) % (i + 2)))

/-- Function assignRoles with the random draws as an input. -/
def assignRoles (playerCount : Nat) (rand : Nat → Nat) : List PlayerRole :=
  let roles := rolesBase playerCount
  fyLoop rand (roles.length - 1) roles

/-! Database helpers: the `prisma.player` reads and writes of the engine. -/

/-- The active players of the room, the query
`prisma.player.findMany` with `isActive: true`; the list order stands
for the query's row order. -/
def dbActive (db : List DbPlayer) : List DbPlayer :=
  db.filter (fun p => p.isActive)

/-- Ids of the active players. -/
def activeIds (db : List DbPlayer) : List String :=
  (dbActive db).map DbPlayer.id

/-- Lookup of one player row by id, `prisma.player.findUnique`. -/
def dbFind (db : List DbPlayer) (pid : String) : Option DbPlayer :=
  db.find? (fun p => p.id == pid)

/-- The write `prisma.player.update` setting `isActive: false` for a
player id (also models the leave-room route's deactivation). -/
def dbSetInactive (db : List DbPlayer) (pid : String) : List DbPlayer :=
  db.map (fun p => if p.id = pid then { p with isActive := false } else p)

/-! Win-condition check (`checkWinConditions`), computed over the active
players fetched from the database. -/

/-- Function checkWinConditions on the fetched active-player rows: the
three guards of the source in order, including the dead third branch. -/
def checkWinConditions (activePlayers : List DbPlayer) : WinResult :=
  let hasBlackHat := activePlayers.any (fun p => p.role == some PlayerRole.BLACK_HAT)
  let hasWhiteHat := activePlayers.any (fun p => p.role == some PlayerRole.WHITE_HAT)
  let activeCount := activePlayers.length
  if activeCount ≤ 2 && hasBlackHat then ⟨true, some PlayerRole.BLACK_HAT⟩
  else if !hasBlackHat then ⟨true, some PlayerRole.CIVILIAN⟩
  else if !hasBlackHat && !hasWhiteHat then ⟨true, some PlayerRole.CIVILIAN⟩
  else ⟨false, none⟩

/-- Variant of checkWinConditions with the `!hasBlackHat && !hasWhiteHat`
branch removed (the refinement claim's candidate). -/
def checkWinConditionsNoDead (activePlayers : List DbPlayer) : WinResult :=
  let hasBlackHat := activePlayers.any (fun p => p.role == some PlayerRole.BLACK_HAT)
  let activeCount := activePlayers.length
  if activeCount ≤ 2 && hasBlackHat then ⟨true, some PlayerRole.BLACK_HAT⟩
  else if !hasBlackHat then ⟨true, some PlayerRole.CIVILIAN⟩
  else ⟨false, none⟩

/-- Which guard of `checkWinConditions` fires, to state unreachability
of the third one. -/
inductive WinBranch where
  | blackHatWins
  | civiliansWin
  | deadBranch
  | gameOn
deriving DecidableEq, Repr

/-- Instrumented `checkWinConditions`: the branch taken. -/
def winBranchTaken (activePlayers : List DbPlayer) : WinBranch :=
  let hasBlackHat := activePlayers.any (fun p => p.role == some PlayerRole.BLACK_HAT)
  let hasWhiteHat := activePlayers.any (fun p => p.role == some PlayerRole.WHITE_HAT)
  let activeCount := activePlayers.length
  if activeCount ≤ 2 && hasBlackHat then WinBranch.blackHatWins
  else if !hasBlackHat then WinBranch.civiliansWin
  else if !hasBlackHat && !hasWhiteHat then WinBranch.deadBranch
  else WinBranch.gameOn

/-! Vote tally (`resolveVotes`, lines 333–341). -/

/-- One step of `voteCounts[targetId] = (voteCounts[targetId] || 0) + 1`. -/
def bumpCount (m : List (String × Nat)) (k : String) : List (String × Nat) :=
  match m with
  | [] => [(k, 1)]
  | (k0, c) :: t => if k0 = k then (k0, c + 1) :: t else (k0, c) :: bumpCount t k

/-- The `voteCounts` object: targets of the cast votes with their
counts, keyed in first-occurrence order; a target nobody voted for has
no entry. -/
def voteCounts (votes : List (String × String)) : List (String × Nat) :=
  votes.foldl (fun m e => bumpCount m e.2) []

/-- The value `Math.max(0, ...Object.values(voteCounts))`. -/
def maxVotes (votes : List (String × String)) : Nat :=
  ((voteCounts votes).map (fun e => e.2)).foldl Nat.max 0

/-- The targets achieving the maximum count
(`Object.entries(voteCounts).filter(...).map(...)`). -/
def topTargets (votes : List (String × String)) : List String :=
  (((voteCounts votes).filter (fun e => e.2 == maxVotes votes)).map (fun e => e.1))

/-! The random sort `players.sort(() => Math.random() - 0.5)` used for
turn order. Its output order is engine-defined; the one property the
engine relies on is that the result is a permutation of the input, so it
is modelled as an insertion sort consuming a stream of random comparison
outcomes (`true` = the comparator returned a negative number). -/

/-- Insert one element, consuming one comparison outcome per probe. -/
def riInsert {α : Type} (a : α) : List α → List Bool → List α × List Bool
  | [], fs => ([a], fs)
  | b :: t, fs =>
    if fs.headD false then (a :: b :: t, fs.tail)
    else
      let r := riInsert a t fs.tail
      (b :: r.1, r.2)

/-- Insertion sort driven by random comparison outcomes. -/
def riSort {α : Type} : List α → List Bool → List α × List Bool
  | [], fs => ([], fs)
  | a :: t, fs =>
    let s := riSort t fs
    riInsert a s.1 s.2

/-- The call `l.sort(() => Math.random() - 0.5)` with the comparison
outcomes as an input. -/
def jsRandomSort {α : Type} (flips : List Bool) (l : List α) : List α :=
  (riSort l flips).1

/-! Round advancement (`startNextRound`). -/

/-- The Redis write `startNextRound` performs: `none` when the word-pair
source yields nothing (the function returns before touching the state
and never calls `setGameState`), otherwise the advanced state. `db` is
read for the active players after any elimination of this resolution. -/
def startNextRoundWrite (state : GameState) (db : List DbPlayer)
    (wordPair : Option String) (flips : List Bool) : Option GameState :=
  match wordPair with
  | none => none
  | some wp =>
    some { state with
      roundNumber := state.roundNumber + 1
      phase := Phase.HINTING
      clues := []
      votes := []
      wordPairId := wp
      turnOrder := (jsRandomSort flips (dbActive db)).map DbPlayer.id
      currentTurnIndex := 0 }

/-! Vote resolution (`resolveVotes`). -/

/-- Outcome of `resolveVotes`: the stored (Redis) game state afterwards
(`none` when `endGame` deleted the session), the database rows, and the
returned `RoundResolution`. -/
structure ResolveOutcome where
  stored : Option GameState
  db : List DbPlayer
  res : RoundResolution
deriving DecidableEq, Repr

/-- Function resolveVotes, from the tally to its four exits. With an empty
tally `topTargets` is empty, so the tie guard fails and
`topTargets[0]` is `undefined`: the player lookup cannot succeed and the
function throws (`Except.error`, state untouched). When a unique top
target is eliminated but neither the white-hat nor the game-over exit is
taken and the word-pair source is empty, `startNextRound` returns
without writing, so the stored state is still the caller's `state`
without the elimination (only the database row was deactivated). -/
def resolveVotes (state : GameState) (db : List DbPlayer)
    (wordPair : Option String) (flips : List Bool) : Except String ResolveOutcome :=
  if (topTargets state.votes).length > 1 then
    Except.ok ⟨some ((startNextRoundWrite state db wordPair flips).getD state), db,
      ⟨none, none, false, false, none⟩⟩
  else
    match (topTargets state.votes).head? with
    | none => Except.error "Eliminated player not found"
    | some eliminatedPlayerId =>
      match dbFind db eliminatedPlayerId with
      | none => Except.error "Eliminated player not found"
      | some eliminatedPlayer =>
        let db1 := dbSetInactive db eliminatedPlayerId
        let state1 := { state with
          eliminatedPlayers := state.eliminatedPlayers ++ [eliminatedPlayerId] }
        if eliminatedPlayer.role == some PlayerRole.WHITE_HAT then
          Except.ok ⟨some { state1 with phase := Phase.GUESSING }, db1,
            ⟨some eliminatedPlayerId, eliminatedPlayer.role, true, false, none⟩⟩
        else
          let winResult := checkWinConditions (dbActive db1)
          if winResult.gameOver then
            Except.ok ⟨none, db1,
              ⟨some eliminatedPlayerId, eliminatedPlayer.role, false, true, winResult.winner⟩⟩
          else
            Except.ok ⟨some ((startNextRoundWrite state1 db1 wordPair flips).getD state), db1,
              ⟨some eliminatedPlayerId, eliminatedPlayer.role, false, false, none⟩⟩

/-! White-hat guessing (`submitWhiteHatGuess`). -/

/-- Outcome of `submitWhiteHatGuess`: stored state afterwards (`none`
when `endGame` deleted the session), database rows, and the response. -/
structure GuessOutcome where
  stored : Option GameState
  db : List DbPlayer
  res : GuessResult
deriving DecidableEq, Repr

/-- Function submitWhiteHatGuess; `wordA` is the looked-up pair's civilian word
(`none` when the pair row is missing), `wordPair` and `flips` feed a
possible `startNextRound`. -/
def submitWhiteHatGuess (state : GameState) (db : List DbPlayer)
    (wordA : Option String) (guess : String)
    (wordPair : Option String) (flips : List Bool) : GuessOutcome :=
  if state.phase ≠ Phase.GUESSING then
    ⟨some state, db, ⟨false, false, none, none, none⟩⟩
  else
    match wordA with
    | none => ⟨some state, db, ⟨false, false, none, none, none⟩⟩
    | some wA =>
      if jsNormalize guess = jsNormalize wA then
        ⟨none, db, ⟨true, true, none, some true, some PlayerRole.WHITE_HAT⟩⟩
      else
        let winResult := checkWinConditions (dbActive db)
        if winResult.gameOver then
          ⟨none, db, ⟨true, false, some wA, some true, winResult.winner⟩⟩
        else
          ⟨some ((startNextRoundWrite state db wordPair flips).getD state), db,
            ⟨true, false, some wA, some false, none⟩⟩

/-! Clue submission (`submitClue`). -/

/-- The `while` loop that skips eliminated players: advance from `i`
while it is in bounds and points at an eliminated id (the JS condition
`i < turnOrder.length && eliminated.includes(turnOrder[i])`). The fuel
is an upper bound on the remaining steps; `skipEliminated` passes the
list length, enough because the loop stops at the first out-of-bounds
index. -/
def skipElimFuel (turnOrder elim : List String) : Nat → Nat → Nat
  | 0, i => i
  | fuel + 1, i =>
    if i < turnOrder.length && elim.contains (turnOrder.getD i "") then
      skipElimFuel turnOrder elim fuel (i + 1)
    else i

/-- Final cursor after skipping eliminated players, starting at `i`. -/
def skipEliminated (turnOrder elim : List String) (i : Nat) : Nat :=
  skipElimFuel turnOrder elim turnOrder.length i

/-- Function submitClue: guards (phase, turn, round row, player row), then the
clue append and cursor advance; the returned state is the stored one
(failures return before any write). `roundExists` and `playerName`
stand for the two prisma lookups, `now` for `new Date()`. -/
def submitClue (state : GameState) (playerId : String) (content : String)
    (roundExists : Bool) (playerName : Option String) (now : Nat) :
    GameState × ClueResult :=
  if state.phase ≠ Phase.HINTING then (state, ⟨false, none, false⟩)
  else if state.turnOrder.get? state.currentTurnIndex ≠ some playerId then
    (state, ⟨false, none, false⟩)
  else if !roundExists then (state, ⟨false, none, false⟩)
  else
    match playerName with
    | none => (state, ⟨false, none, false⟩)
    | some name =>
      let clues1 := state.clues ++ [⟨playerId, name, content, now⟩]
      let i1 := skipEliminated state.turnOrder state.eliminatedPlayers
        (state.currentTurnIndex + 1)
      if i1 ≥ state.turnOrder.length then
        ({ state with clues := clues1, currentTurnIndex := i1, phase := Phase.VOTING },
          ⟨true, none, true⟩)
      else
        ({ state with clues := clues1, currentTurnIndex := i1 },
          ⟨true, state.turnOrder.get? i1, false⟩)

/-! Vote submission (`submitVote`). -/

/-- Function submitVote: guards (phase, voter not eliminated, re-vote guard by
JS truthiness of `state.votes[voterId]`, round row), then the vote write
and the all-voted check over the non-eliminated turn order. -/
def submitVote (state : GameState) (voterId targetId : String)
    (roundExists : Bool) : GameState × VoteResult :=
  if state.phase ≠ Phase.VOTING then (state, ⟨false, none⟩)
  else if state.eliminatedPlayers.contains voterId then (state, ⟨false, none⟩)
  else if truthyStr (objGet state.votes voterId) then (state, ⟨false, none⟩)
  else if !roundExists then (state, ⟨false, none⟩)
  else
    let votes1 := objSet state.votes voterId targetId
    let activePlayers := state.turnOrder.filter
      (fun pid => !(state.eliminatedPlayers.contains pid))
    let allVoted := activePlayers.all (fun pid => truthyStr (objGet votes1 pid))
    ({ state with votes := votes1 }, ⟨true, some allVoted⟩)

/-! The reachable-state model for the turn-cursor invariant. A `World`
couples the stored Redis session with the room's player rows; `Step`
holds one constructor per operation that can change either once a game
is running. `resolveVotes` carries the `phase = VOTING` guard because
the socket layer (`src/socket.ts`) triggers it only from a successful
`submitVote`, whose own guard requires that phase. -/

/-- Stored game session plus the room's database player rows. -/
structure World where
  game : GameState
  db : List DbPlayer
deriving DecidableEq, Repr

/-- The game state `startGame` writes: round 1, phase HINTING, turn
order a random sort of the active players' ids, empty clues, votes and
eliminations. -/
def initWorld (roomId wordPairId : String) (db : List DbPlayer)
    (flips : List Bool) : World :=
  ⟨{ roomId := roomId
     roundNumber := 1
     phase := Phase.HINTING
     turnOrder := (jsRandomSort flips (dbActive db)).map DbPlayer.id
     currentTurnIndex := 0
     clues := []
     votes := []
     eliminatedPlayers := []
     wordPairId := wordPairId }, db⟩

/-- One engine operation on a running game, with the operation's
external inputs (lookups, randomness) universally quantified. `leave`
is the leave-room route deactivating an arbitrary player row; a join
cannot reactivate one mid-game because the join route requires room
status WAITING. Sessions deleted by `endGame` have no successor. -/
inductive Step : World → World → Prop where
  | clue (w : World) (playerId content : String) (roundExists : Bool)
      (playerName : Option String) (now : Nat) :
      Step w ⟨(submitClue w.game playerId content roundExists playerName now).1, w.db⟩
  | vote (w : World) (voterId targetId : String) (roundExists : Bool) :
      Step w ⟨(submitVote w.game voterId targetId roundExists).1, w.db⟩
  | resolve (w : World) (wordPair : Option String) (flips : List Bool)
      (out : ResolveOutcome) (g : GameState) :
      w.game.phase = Phase.VOTING →
      resolveVotes w.game w.db wordPair flips = Except.ok out →
      out.stored = some g →
      Step w ⟨g, out.db⟩
  | guess (w : World) (wordA wordPair : Option String) (g : String)
      (flips : List Bool) (g1 : GameState) :
      (submitWhiteHatGuess w.game w.db wordA g wordPair flips).stored = some g1 →
      Step w ⟨g1, (submitWhiteHatGuess w.game w.db wordA g wordPair flips).db⟩
  | leave (w : World) (pid : String) :
      Step w ⟨w.game, dbSetInactive w.db pid⟩

/-- Worlds reachable from a freshly started game. -/
inductive Reachable : World → Prop where
  | init (roomId wordPairId : String) (db : List DbPlayer) (flips : List Bool) :
      Reachable (initWorld roomId wordPairId db flips)
  | step (w w' : World) : Reachable w → Step w w' → Reachable w'

/-- The inductive invariant behind the turn-cursor claim: an eliminated
player has no active database row; in phase HINTING the turn order
holds no eliminated player; outside HINTING the cursor is already past
the end of the turn order. -/
def Inv (w : World) : Prop :=
  (∀ p ∈ w.game.eliminatedPlayers, p ∉ activeIds w.db) ∧
  (w.game.phase = Phase.HINTING →
    ∀ p ∈ w.game.turnOrder, p ∉ w.game.eliminatedPlayers) ∧
  (w.game.phase ≠ Phase.HINTING →
    w.game.turnOrder.length ≤ w.game.currentTurnIndex)

/-! Permutation lemmas for the two shuffles. -/

/-- Writing `b` over position `m` while keeping the overwritten element
`y` in front is a permutation of putting `b` in front. -/
theorem cons_set_perm {α : Type} (t : List α) :
    ∀ (m : Nat) (y b : α), t.get? m = some y →
      List.Perm (y :: t.set m b) (b :: t) := by
  induction t with
  | nil => intro m y b h; simp at h
  | cons c s ih =>
    intro m y b h
    cases m with
    | zero =>
      simp only [List.get?] at h
      injection h with h
      subst h
      exact List.Perm.swap b c s
    | succ m =>
      simp only [List.get?] at h
      have h2 := ih m y b h
      exact ((List.Perm.swap c y _).trans (List.Perm.cons c h2)).trans
        (List.Perm.swap b c s)

/-- A double `set` realizing a swap of two present elements permutes
the list. -/
theorem set_set_perm {α : Type} (l : List α) :
    ∀ (i j : Nat) (x y : α), l.get? i = some x → l.get? j = some y →
      List.Perm ((l.set i y).set j x) l := by
  induction l with
  | nil => intro i j x y hi _; simp at hi
  | cons a t ih =>
    intro i j x y hi hj
    cases i with
    | zero =>
      simp only [List.get?] at hi
      injection hi with hi
      subst hi
      cases j with
      | zero =>
        simp only [List.get?] at hj
        injection hj with hj
        subst hj
        simp
      | succ m =>
        simp only [List.get?] at hj
        simpa using cons_set_perm t m y a hj
    | succ n =>
      simp only [List.get?] at hi
      cases j with
      | zero =>
        simp only [List.get?] at hj
        injection hj with hj
        subst hj
        simpa using cons_set_perm t n x a hi
      | succ m =>
        simp only [List.get?] at hj
        simpa using List.Perm.cons a (ih n m x y hi hj)

/-- A swap step permutes the list. -/
theorem listSwap_perm {α : Type} (l : List α) (i j : Nat) :
    List.Perm (listSwap l i j) l := by
  unfold listSwap
  cases hi : l.get? i with
  | none => exact List.Perm.refl l
  | some x =>
    cases hj : l.get? j with
    | none => exact List.Perm.refl l
    | some y => exact set_set_perm l i j x y hi hj

/-- The Fisher–Yates loop permutes the list. -/
theorem fyLoop_perm (rand : Nat → Nat) :
    ∀ (n : Nat) (l : List PlayerRole), List.Perm (fyLoop rand n l) l := by
  intro n
  induction n with
  | zero => intro l; exact List.Perm.refl l
  | succ i ih =>
    intro l
    exact (ih _).trans (listSwap_perm l (i + 1) (rand (i + 1) % (i + 2)))

/-- Role assignment returns a permutation of the unshuffled role list. -/
theorem assignRoles_perm (n : Nat) (rand : Nat → Nat) :
    List.Perm (assignRoles n rand) (rolesBase n) :=
  fyLoop_perm rand _ _

/-- Random insertion keeps all elements: the result is a permutation of
consing the inserted element. -/
theorem riInsert_perm {α : Type} (a : α) :
    ∀ (l : List α) (fs : List Bool), List.Perm (riInsert a l fs).1 (a :: l) := by
  intro l
  induction l with
  | nil => intro fs; simp [riInsert]
  | cons b t ih =>
    intro fs
    cases fs with
    | nil =>
      simp only [riInsert, List.headD, List.tail, if_neg Bool.false_ne_true]
      exact (List.Perm.cons b (ih [])).trans (List.Perm.swap a b t)
    | cons f fs =>
      cases f with
      | true => simp [riInsert]
      | false =>
        simp only [riInsert, List.headD, List.tail, if_neg Bool.false_ne_true]
        exact (List.Perm.cons b (ih fs)).trans (List.Perm.swap a b t)

/-- The randomly driven insertion sort permutes its input. -/
theorem riSort_perm {α : Type} :
    ∀ (l : List α) (fs : List Bool), List.Perm (riSort l fs).1 l := by
  intro l
  induction l with
  | nil => intro fs; simp [riSort]
  | cons a t ih =>
    intro fs
    simp only [riSort]
    exact (riInsert_perm a _ _).trans (List.Perm.cons a (ih fs))

/-- The modelled JS random sort permutes its input. -/
theorem jsRandomSort_perm {α : Type} (flips : List Bool) (l : List α) :
    List.Perm (jsRandomSort flips l) l :=
  riSort_perm l flips

/-! Claim C1: role assignment profile. -/

/-- Claim C1, amended: for every active-player count n with
MIN_PLAYERS ≤ n < MAX_PLAYERS and any random draws, assignRoles returns
a role sequence of length n containing exactly one BLACK_HAT, exactly
one WHITE_HAT if and only if n > WHITE_HAT_MIN_PLAYERS − 1 (that is, at
6 or more players — not only above 6 as the claim stated), and every
remaining entry CIVILIAN. -/
theorem c1_assignRoles_profile (n : Nat) (rand : Nat → Nat)
    (h1 : MIN_PLAYERS ≤ n) (h2 : n < MAX_PLAYERS) :
    (assignRoles n rand).length = n ∧
    (assignRoles n rand).count PlayerRole.BLACK_HAT = 1 ∧
    (assignRoles n rand).count PlayerRole.WHITE_HAT =
      (if WHITE_HAT_MIN_PLAYERS - 1 < n then 1 else 0) ∧
    (assignRoles n rand).count PlayerRole.CIVILIAN =
      n - 1 - (if WHITE_HAT_MIN_PLAYERS - 1 < n then 1 else 0) := by
  have hp := assignRoles_perm n rand
  rw [hp.length_eq, hp.count_eq, hp.count_eq, hp.count_eq]
  unfold MIN_PLAYERS at h1
  unfold MAX_PLAYERS at h2
  interval_cases n <;> decide

/-- Witness for C1 at n = 7 (the white-hat case). -/
theorem c1_assignRoles_profile_witness :
    (assignRoles 7 (fun i => i)).length = 7 ∧
    (assignRoles 7 (fun i => i)).count PlayerRole.BLACK_HAT = 1 ∧
    (assignRoles 7 (fun i => i)).count PlayerRole.WHITE_HAT =
      (if WHITE_HAT_MIN_PLAYERS - 1 < 7 then 1 else 0) ∧
    (assignRoles 7 (fun i => i)).count PlayerRole.CIVILIAN =
      7 - 1 - (if WHITE_HAT_MIN_PLAYERS - 1 < 7 then 1 else 0) :=
  c1_assignRoles_profile 7 (fun i => i) (by decide) (by decide)

/-- Counterexample to C1 as stated: at n = 6 the count is within
[4, 8), 6 is not greater than the white-hat threshold 6, yet the
assigned roles do contain a WHITE_HAT, because the code enables it for
counts greater than WHITE_HAT_MIN_PLAYERS − 1 = 5. -/
theorem c1_counterexample :
    MIN_PLAYERS ≤ 6 ∧ 6 < MAX_PLAYERS ∧ ¬ 6 > WHITE_HAT_MIN_PLAYERS ∧
    (assignRoles 6 (fun _ => 0)).count PlayerRole.WHITE_HAT = 1 := by
  decide

/-! Claim C3: win-condition evaluation. -/

/-- Claim C3: over any set of active players, the win check reports
BLACK_HAT exactly when at most 2 players are active and a BLACK_HAT is
among them (whatever other roles are present); it reports CIVILIAN
exactly when no active player is BLACK_HAT; and it reports that the
game continues exactly when more than 2 players are active and a
BLACK_HAT is among them. -/
theorem c3_checkWinConditions_cases (ps : List DbPlayer) :
    (checkWinConditions ps = ⟨true, some PlayerRole.BLACK_HAT⟩ ↔
      ps.length ≤ 2 ∧ ps.any (fun p => p.role == some PlayerRole.BLACK_HAT) = true) ∧
    (checkWinConditions ps = ⟨true, some PlayerRole.CIVILIAN⟩ ↔
      ps.any (fun p => p.role == some PlayerRole.BLACK_HAT) = false) ∧
    (checkWinConditions ps = ⟨false, none⟩ ↔
      2 < ps.length ∧ ps.any (fun p => p.role == some PlayerRole.BLACK_HAT) = true) := by
  by_cases hb : ps.any (fun p => p.role == some PlayerRole.BLACK_HAT) = true <;>
    by_cases hl : ps.length ≤ 2 <;>
      simp [checkWinConditions, hb, hl] <;> omega

/-! Claim C8: the dead branch of the win check. -/

/-- Claim C8: the branch of checkWinConditions guarded by
"no BLACK_HAT and no WHITE_HAT" never fires, and removing it yields an
extensionally equal function: the preceding "no BLACK_HAT" guard
already returns the CIVILIAN result in every case the removed branch
would cover. -/
theorem c8_deadBranch_removal (ps : List DbPlayer) :
    checkWinConditions ps = checkWinConditionsNoDead ps ∧
    winBranchTaken ps ≠ WinBranch.deadBranch := by
  by_cases hb : ps.any (fun p => p.role == some PlayerRole.BLACK_HAT) = true <;>
    by_cases hl : ps.length ≤ 2 <;>
      simp [checkWinConditions, checkWinConditionsNoDead, winBranchTaken, hb, hl]

/-! Tally correctness: the voteCounts object counts votes per target. -/

/-- Read a count from the voteCounts object, 0 when absent
(the JS `voteCounts[targetId] || 0`). -/
def countOf (m : List (String × Nat)) (k : String) : Nat :=
  ((m.find? (fun e => e.1 == k)).map Prod.snd).getD 0

/-- Reading a consed counts object. -/
theorem countOf_cons (a : String) (b : Nat) (t : List (String × Nat)) (k : String) :
    countOf ((a, b) :: t) k = if a = k then b else countOf t k := by
  by_cases h : a = k <;> simp [countOf, List.find?_cons, h]

/-- Bumping a key increments exactly that key's count. -/
theorem countOf_bumpCount (m : List (String × Nat)) (k k' : String) :
    countOf (bumpCount m k) k' = countOf m k' + (if k = k' then 1 else 0) := by
  induction m with
  | nil =>
    by_cases h : k = k' <;> simp [bumpCount, countOf_cons, countOf, h]
  | cons e t ih =>
    obtain ⟨k0, c⟩ := e
    by_cases h0 : k0 = k
    · subst h0
      by_cases h' : k0 = k' <;> simp [bumpCount, countOf_cons, h'] <;> omega
    · by_cases h' : k0 = k'
      · have hk' : ¬ k' = k := by rw [← h']; exact h0
        have hk2 : ¬ k = k' := fun hh => hk' (Eq.symm hh)
        simp [bumpCount, countOf_cons, h0, h', hk', hk2, ih]
      · simp [bumpCount, countOf_cons, h0, h', ih]

/-- The tally fold, relative to any accumulator. -/
theorem countOf_foldl_bump (votes : List (String × String)) :
    ∀ (m : List (String × Nat)) (t : String),
      countOf (votes.foldl (fun m e => bumpCount m e.2) m) t =
        countOf m t + (votes.map Prod.snd).count t := by
  induction votes with
  | nil => intro m t; simp
  | cons v vs ih =>
    intro m t
    simp only [List.foldl_cons, List.map_cons]
    rw [ih, countOf_bumpCount]
    by_cases h : v.2 = t <;> simp [List.count_cons, h] <;> omega

/-- The voteCounts object holds, for every target, the number of votes
cast for that target. -/
theorem countOf_voteCounts (votes : List (String × String)) (t : String) :
    countOf (voteCounts votes) t = (votes.map Prod.snd).count t := by
  have h := countOf_foldl_bump votes [] t
  simpa [voteCounts, countOf] using h

/-! Claim C2: vote resolution. -/

/-- Claim C2, amended: in phase VOTING, resolveVotes counts votes per
target (only targets that actually received a vote get an entry) and
collects the targets achieving the maximum count. With the all-abstain
empty vote map there is no entry at all, so the tie branch is not taken
and the function fails with an error — nobody is eliminated and no next
round is started (this replaces the claim's max = 0 "tie" reading).
With two or more tied targets nobody is eliminated and the next round
is started. With a unique top target, that player is appended to the
eliminated list and the row is marked inactive; a WHITE_HAT elimination
turns the phase to GUESSING with no win-condition check; otherwise win
conditions are evaluated and, if the game is not over, the next round
is started. -/
theorem c2_resolveVotes_spec (state : GameState) (db : List DbPlayer)
    (wordPair : Option String) (flips : List Bool)
    (hphase : state.phase = Phase.VOTING) :
    (∀ t, countOf (voteCounts state.votes) t = (state.votes.map Prod.snd).count t) ∧
    (state.votes = [] →
      resolveVotes state db wordPair flips =
        Except.error "Eliminated player not found") ∧
    ((topTargets state.votes).length > 1 →
      resolveVotes state db wordPair flips =
        Except.ok ⟨some ((startNextRoundWrite state db wordPair flips).getD state), db,
          ⟨none, none, false, false, none⟩⟩) ∧
    (∀ t pl, topTargets state.votes = [t] → dbFind db t = some pl →
      (pl.role = some PlayerRole.WHITE_HAT →
        resolveVotes state db wordPair flips =
          Except.ok ⟨some { state with
              eliminatedPlayers := state.eliminatedPlayers ++ [t],
              phase := Phase.GUESSING },
            dbSetInactive db t,
            ⟨some t, some PlayerRole.WHITE_HAT, true, false, none⟩⟩) ∧
      (pl.role ≠ some PlayerRole.WHITE_HAT →
        (checkWinConditions (dbActive (dbSetInactive db t))).gameOver = true →
        resolveVotes state db wordPair flips =
          Except.ok ⟨none, dbSetInactive db t,
            ⟨some t, pl.role, false, true,
              (checkWinConditions (dbActive (dbSetInactive db t))).winner⟩⟩) ∧
      (pl.role ≠ some PlayerRole.WHITE_HAT →
        (checkWinConditions (dbActive (dbSetInactive db t))).gameOver = false →
        resolveVotes state db wordPair flips =
          Except.ok ⟨some ((startNextRoundWrite { state with
                eliminatedPlayers := state.eliminatedPlayers ++ [t] }
              (dbSetInactive db t) wordPair flips).getD state),
            dbSetInactive db t, ⟨some t, pl.role, false, false, none⟩⟩)) := by
  refine ⟨fun t => countOf_voteCounts state.votes t, ?_, ?_, ?_⟩
  · intro h
    simp [resolveVotes, topTargets, voteCounts, maxVotes, h]
  · intro h
    unfold resolveVotes
    rw [if_pos h]
  · intro t pl ht hfind
    refine ⟨?_, ?_, ?_⟩
    · intro hrole
      simp [resolveVotes, ht, hfind, hrole]
    · intro hrole hgo
      have hb : (pl.role == some PlayerRole.WHITE_HAT) = false := by
        simp [hrole]
      simp [resolveVotes, ht, hfind, hb, hgo]
    · intro hrole hgo
      have hb : (pl.role == some PlayerRole.WHITE_HAT) = false := by
        simp [hrole]
      simp [resolveVotes, ht, hfind, hb, hgo]

/-! Concrete sessions used by witnesses and counterexamples. -/

/-- A VOTING state whose vote map is tied 1–1. -/
def tieState : GameState :=
  { roomId := "room1", roundNumber := 1, phase := Phase.VOTING,
    turnOrder := ["a", "b"], currentTurnIndex := 2, clues := [],
    votes := [("a", "b"), ("b", "a")], eliminatedPlayers := [],
    wordPairId := "wp1" }

/-- A VOTING state with the all-abstain empty vote map. -/
def abstainState : GameState :=
  { tieState with votes := [] }

/-- A GUESSING state (the white hat "c" was just eliminated). -/
def guessState : GameState :=
  { roomId := "room2", roundNumber := 2, phase := Phase.GUESSING,
    turnOrder := ["a", "b", "c"], currentTurnIndex := 3, clues := [],
    votes := [], eliminatedPlayers := ["c"], wordPairId := "wp2" }

/-- Three active rows including a black hat: the win check reports that
the game continues. -/
def triBlackDb : List DbPlayer :=
  [⟨"a", some PlayerRole.CIVILIAN, true⟩,
   ⟨"b", some PlayerRole.BLACK_HAT, true⟩,
   ⟨"d", some PlayerRole.CIVILIAN, true⟩]

/-- A VOTING state in which voter "v" has a recorded non-empty vote. -/
def c6State : GameState :=
  { roomId := "room3", roundNumber := 1, phase := Phase.VOTING,
    turnOrder := ["v", "w"], currentTurnIndex := 2, clues := [],
    votes := [("v", "w")], eliminatedPlayers := [], wordPairId := "wp3" }

/-- A VOTING state in which voter "v" has a recorded empty-string vote. -/
def c10State : GameState :=
  { c6State with votes := [("v", "")] }

/-- Witness for C2: at the concrete tied session the tie branch fires,
nobody is eliminated and (the word-pair source being empty) the stored
state is unchanged. -/
theorem c2_resolveVotes_spec_witness :
    resolveVotes tieState [] none [] =
      Except.ok ⟨some tieState, [], ⟨none, none, false, false, none⟩⟩ :=
  (c2_resolveVotes_spec tieState [] none [] rfl).2.2.1 (by decide)

/-- Counterexample to C2 as stated: with the all-abstain empty vote map
(max count 0) the code does not take the tie path and start the next
round; it fails with an error. -/
theorem c2_counterexample :
    abstainState.phase = Phase.VOTING ∧ abstainState.votes = [] ∧
    resolveVotes abstainState [] none [] =
      Except.error "Eliminated player not found" :=
  ⟨rfl, rfl, rfl⟩

/-! Claim C4: the white-hat guess. -/

/-- Claim C4, amended: in phase GUESSING the guess is judged correct
exactly when guess and wordA agree after trimming and lowercasing; a
correct guess ends the game with winner WHITE_HAT (and its response
carries no correctWord — this is the one amendment); an incorrect guess
evaluates win conditions and, when the game is unresolved, starts the
next round; the incorrect-guess responses carry the correct word. -/
theorem c4_whiteHatGuess_spec (state : GameState) (db : List DbPlayer)
    (wA guess : String) (wordPair : Option String) (flips : List Bool)
    (hphase : state.phase = Phase.GUESSING) :
    ((submitWhiteHatGuess state db (some wA) guess wordPair flips).res.correct = true ↔
      jsNormalize guess = jsNormalize wA) ∧
    (jsNormalize guess = jsNormalize wA →
      submitWhiteHatGuess state db (some wA) guess wordPair flips =
        ⟨none, db, ⟨true, true, none, some true, some PlayerRole.WHITE_HAT⟩⟩) ∧
    (jsNormalize guess ≠ jsNormalize wA →
      (checkWinConditions (dbActive db)).gameOver = true →
      submitWhiteHatGuess state db (some wA) guess wordPair flips =
        ⟨none, db, ⟨true, false, some wA, some true,
          (checkWinConditions (dbActive db)).winner⟩⟩) ∧
    (jsNormalize guess ≠ jsNormalize wA →
      (checkWinConditions (dbActive db)).gameOver = false →
      submitWhiteHatGuess state db (some wA) guess wordPair flips =
        ⟨some ((startNextRoundWrite state db wordPair flips).getD state), db,
          ⟨true, false, some wA, some false, none⟩⟩) := by
  refine ⟨?_, ?_, ?_, ?_⟩
  · by_cases hc : jsNormalize guess = jsNormalize wA
    · simp [submitWhiteHatGuess, hphase, hc]
    · cases hgo : (checkWinConditions (dbActive db)).gameOver <;>
        simp [submitWhiteHatGuess, hphase, hc, hgo]
  · intro hc
    simp [submitWhiteHatGuess, hphase, hc]
  · intro hc hgo
    simp [submitWhiteHatGuess, hphase, hc, hgo]
  · intro hc hgo
    simp [submitWhiteHatGuess, hphase, hc, hgo]

/-- Witness for C4: a wrong guess against an unresolved three-player
board returns success with the correct word revealed. -/
theorem c4_whiteHatGuess_spec_witness :
    submitWhiteHatGuess guessState triBlackDb (some "Mèo") "cat" none [] =
      ⟨some guessState, triBlackDb, ⟨true, false, some "Mèo", some false, none⟩⟩ :=
  (c4_whiteHatGuess_spec guessState triBlackDb "Mèo" "cat" none [] rfl).2.2.2
    (by decide) (by decide)

/-- Counterexample to C4 as stated: the correct guess "  Mèo " against
stored word "Mèo" is accepted (trim and lowercase match), but the
correct-guess response carries no correctWord, so the response does not
include the correct word in every case. -/
theorem c4_counterexample :
    guessState.phase = Phase.GUESSING ∧
    (submitWhiteHatGuess guessState [] (some "Mèo") "  Mèo " none []).res.correct = true ∧
    (submitWhiteHatGuess guessState [] (some "Mèo") "  Mèo " none []).res.correctWord = none :=
  ⟨rfl, by decide, by decide⟩

/-! Claims C6 and C10: the re-vote guard. -/

/-- Lookup after write on the votes object. -/
theorem objGet_objSet (m : List (String × String)) (k v : String) :
    objGet (objSet m k v) k = some v := by
  induction m with
  | nil => simp [objGet, objSet]
  | cons e t ih =>
    obtain ⟨k0, v0⟩ := e
    by_cases h : k0 = k
    · simp [objSet, h, objGet, List.find?_cons]
    · simpa [objSet, h, objGet, List.find?_cons] using ih

/-- Claim C6, amended: a second submitVote from a voter whose recorded
target in the current round is a non-empty string fails — whatever the
new target and the other guards — and leaves the state, in particular
the vote map and hence the tally, unchanged. The proviso "non-empty" is
forced by the truthiness re-vote guard (see C10). -/
theorem c6_submitVote_reject (state : GameState) (voterId targetId : String)
    (roundExists : Bool) (t : String)
    (hv : objGet state.votes voterId = some t) (hne : t ≠ "") :
    submitVote state voterId targetId roundExists = (state, ⟨false, none⟩) ∧
    (submitVote state voterId targetId roundExists).1.votes = state.votes := by
  have htr : truthyStr (objGet state.votes voterId) = true := by
    simp [truthyStr, hv, hne]
  have hmain : submitVote state voterId targetId roundExists = (state, ⟨false, none⟩) := by
    unfold submitVote
    by_cases h1 : state.phase ≠ Phase.VOTING
    · rw [if_pos h1]
    · rw [if_neg h1]
      by_cases h2 : state.eliminatedPlayers.contains voterId = true
      · rw [if_pos h2]
      · rw [if_neg h2, if_pos htr]
  exact ⟨hmain, by rw [hmain]⟩

/-- Witness for C6 at the concrete session with a recorded vote "w". -/
theorem c6_submitVote_reject_witness :
    submitVote c6State "v" "x" true = (c6State, ⟨false, none⟩) :=
  (c6_submitVote_reject c6State "v" "x" true "w" rfl (by decide)).1

/-- Counterexample to C6 as stated: when the recorded vote is the empty
string, a second vote from the same voter succeeds and overwrites it. -/
theorem c6_counterexample :
    objGet c10State.votes "v" = some "" ∧
    (submitVote c10State "v" "x" true).2.success = true ∧
    (submitVote c10State "v" "x" true).1.votes = [("v", "x")] :=
  ⟨rfl, rfl, rfl⟩

/-- Claim C10: the re-vote guard tests JS truthiness, not presence: a
voter whose recorded target is the empty string may vote again in the
same round, the write succeeding and overwriting the stored vote. -/
theorem c10_submitVote_overwrite (state : GameState) (voterId targetId : String)
    (hphase : state.phase = Phase.VOTING)
    (helim : state.eliminatedPlayers.contains voterId = false)
    (hv : objGet state.votes voterId = some "") :
    (submitVote state voterId targetId true).2.success = true ∧
    (submitVote state voterId targetId true).1.votes =
      objSet state.votes voterId targetId ∧
    objGet (submitVote state voterId targetId true).1.votes voterId =
      some targetId := by
  have htr : truthyStr (objGet state.votes voterId) = false := by
    simp [truthyStr, hv]
  have hph : ¬ state.phase ≠ Phase.VOTING := by simp [hphase]
  have hmain : (submitVote state voterId targetId true).1.votes =
      objSet state.votes voterId targetId := by
    unfold submitVote
    rw [if_neg hph, if_neg (by simpa using helim), if_neg (by simp [htr])]
    simp
  refine ⟨?_, hmain, by rw [hmain]; exact objGet_objSet _ _ _⟩
  unfold submitVote
  rw [if_neg hph, if_neg (by simpa using helim), if_neg (by simp [htr])]
  simp

/-- Witness for C10 at the concrete session with a recorded "" vote. -/
theorem c10_submitVote_overwrite_witness :
    (submitVote c10State "v" "x" true).2.success = true :=
  (c10_submitVote_overwrite c10State "v" "x" rfl rfl rfl).1

/-! Claim C7: round advancement frame. -/

/-- Claim C7: a successful round advancement increments the round
number by one, resets the phase to HINTING, empties clues and votes,
sets the turn order to a permutation of exactly the currently active
player ids, resets the cursor to 0 and leaves the eliminated list
unchanged. -/
theorem c7_startNextRound_frame (state : GameState) (db : List DbPlayer)
    (wp : String) (flips : List Bool) :
    (startNextRoundWrite state db (some wp) flips).isSome = true ∧
    ∀ s', startNextRoundWrite state db (some wp) flips = some s' →
      s'.roundNumber = state.roundNumber + 1 ∧
      s'.phase = Phase.HINTING ∧
      s'.clues = [] ∧
      s'.votes = [] ∧
      s'.currentTurnIndex = 0 ∧
      List.Perm s'.turnOrder (activeIds db) ∧
      s'.eliminatedPlayers = state.eliminatedPlayers := by
  refine ⟨rfl, ?_⟩
  intro s' hs
  simp only [startNextRoundWrite, Option.some.injEq] at hs
  subst hs
  refine ⟨rfl, rfl, rfl, rfl, rfl, ?_, rfl⟩
  exact (jsRandomSort_perm flips (dbActive db)).map DbPlayer.id

/-! Claim C9: silent no-op when the word-pair source is empty. -/

/-- Claim C9: when the word-pair source yields nothing, startNextRound
writes no state at all (every field unchanged) and signals no error; in
particular a tie resolution and a wrong white-hat guess then leave the
session in its previous phase at the same round number while still
reporting success. -/
theorem c9_startNextRound_silent (state : GameState) (db : List DbPlayer)
    (flips : List Bool) (wA g : String) :
    startNextRoundWrite state db none flips = none ∧
    (state.phase = Phase.VOTING → (topTargets state.votes).length > 1 →
      resolveVotes state db none flips =
        Except.ok ⟨some state, db, ⟨none, none, false, false, none⟩⟩) ∧
    (state.phase = Phase.GUESSING → jsNormalize g ≠ jsNormalize wA →
      (checkWinConditions (dbActive db)).gameOver = false →
      submitWhiteHatGuess state db (some wA) g none flips =
        ⟨some state, db, ⟨true, false, some wA, some false, none⟩⟩) := by
  refine ⟨rfl, ?_, ?_⟩
  · intro _ htie
    unfold resolveVotes
    rw [if_pos htie]
    rfl
  · intro hph hne hgo
    simp [submitWhiteHatGuess, hph, hne, hgo]
    rfl

/-! The skip loop of submitClue. -/

/-- The skip loop never moves the cursor backwards. -/
theorem skipElimFuel_le (turnOrder elim : List String) :
    ∀ (fuel i : Nat), i ≤ skipElimFuel turnOrder elim fuel i := by
  intro fuel
  induction fuel with
  | zero => intro i; exact Nat.le_refl i
  | succ f ih =>
    intro i
    rw [skipElimFuel]
    by_cases h : (i < turnOrder.length && elim.contains (turnOrder.getD i "")) = true
    · rw [if_pos h]
      exact Nat.le_trans (Nat.le_succ i) (ih (i + 1))
    · rw [if_neg h]

/-- With enough fuel, a cursor the loop leaves in bounds points at a
non-eliminated player. -/
theorem skipElimFuel_not_elim (turnOrder elim : List String) :
    ∀ (fuel i : Nat), turnOrder.length ≤ fuel + i →
      ∀ p, turnOrder.get? (skipElimFuel turnOrder elim fuel i) = some p →
        elim.contains p = false := by
  intro fuel
  induction fuel with
  | zero =>
    intro i hlen p hp
    rw [skipElimFuel] at hp
    have hi : i < turnOrder.length := List.get?_eq_some.mp hp |>.1
    omega
  | succ f ih =>
    intro i hlen p hp
    rw [skipElimFuel] at hp
    by_cases h : (i < turnOrder.length && elim.contains (turnOrder.getD i "")) = true
    · rw [if_pos h] at hp
      exact ih (i + 1) (by omega) p hp
    · rw [if_neg h] at hp
      have hi : i < turnOrder.length := List.get?_eq_some.mp hp |>.1
      have hd : turnOrder.getD i "" = p := by
        rw [List.getD_eq_getElem?_getD, ← List.get?_eq_getElem?, hp]
        rfl
      rw [Bool.and_eq_true, not_and] at h
      have := h (by simpa using hi)
      rw [hd] at this
      simpa using this

/-- The skip loop as used by submitClue: it never moves backwards, and
whenever it stops in bounds it stops on a non-eliminated id. -/
theorem skipEliminated_spec (turnOrder elim : List String) (i : Nat) :
    i ≤ skipEliminated turnOrder elim i ∧
    ∀ p, turnOrder.get? (skipEliminated turnOrder elim i) = some p →
      elim.contains p = false :=
  ⟨skipElimFuel_le turnOrder elim turnOrder.length i,
    fun p hp =>
      skipElimFuel_not_elim turnOrder elim turnOrder.length i
        (Nat.le_add_right _ _) p hp⟩

/-- Behavior of every successful submitClue: the cursor strictly
increases, turn order and eliminated list are untouched, a cursor at or
past the end comes with phase VOTING, and a cursor still in bounds
points at a non-eliminated player. -/
theorem submitClue_success_spec (state : GameState) (pid content : String)
    (rex : Bool) (nm : Option String) (now : Nat)
    (hs : (submitClue state pid content rex nm now).2.success = true) :
    state.currentTurnIndex < (submitClue state pid content rex nm now).1.currentTurnIndex ∧
    (submitClue state pid content rex nm now).1.turnOrder = state.turnOrder ∧
    (submitClue state pid content rex nm now).1.eliminatedPlayers =
      state.eliminatedPlayers ∧
    (state.turnOrder.length ≤ (submitClue state pid content rex nm now).1.currentTurnIndex →
      (submitClue state pid content rex nm now).1.phase = Phase.VOTING) ∧
    (∀ q, (submitClue state pid content rex nm now).1.turnOrder.get?
        (submitClue state pid content rex nm now).1.currentTurnIndex = some q →
      q ∉ (submitClue state pid content rex nm now).1.eliminatedPlayers) := by
  unfold submitClue at hs ⊢
  cases nm with
  | none => split_ifs at hs <;> simp at hs
  | some name =>
    dsimp only at hs ⊢
    have hskip := skipEliminated_spec state.turnOrder state.eliminatedPlayers
      (state.currentTurnIndex + 1)
    split_ifs at hs ⊢ with h1 h2 h3 h4 <;> try simp at hs
    · refine ⟨Nat.lt_of_succ_le hskip.1, rfl, rfl, fun _ => rfl, ?_⟩
      intro q hq
      rw [List.get?_eq_none.mpr h4] at hq
      cases hq
    · refine ⟨Nat.lt_of_succ_le hskip.1, rfl, rfl, fun hlen => absurd hlen h4, ?_⟩
      intro q hq
      have hc := hskip.2 q hq
      intro hmem
      rw [← List.elem_iff] at hmem
      rw [show state.eliminatedPlayers.contains q = List.elem q state.eliminatedPlayers from rfl] at hc
      rw [hmem] at hc
      cases hc

/-! Database facts used by the invariant. -/

/-- An id active after deactivating `t` was active before, and is not
`t`. -/
theorem activeIds_setInactive (db : List DbPlayer) (t p : String) :
    p ∈ activeIds (dbSetInactive db t) → p ∈ activeIds db ∧ p ≠ t := by
  intro hp
  simp only [activeIds, dbActive, dbSetInactive, List.mem_map, List.mem_filter] at hp
  obtain ⟨q, ⟨hq1, hq2⟩, hq3⟩ := hp
  obtain ⟨r, hr, hrq⟩ := hq1
  by_cases hrt : r.id = t
  · rw [if_pos hrt] at hrq
    subst hrq
    simp at hq2
  · rw [if_neg hrt] at hrq
    subst hrq
    constructor
    · simp only [activeIds, dbActive, List.mem_map, List.mem_filter]
      exact ⟨r, ⟨hr, hq2⟩, hq3⟩
    · rw [← hq3]
      exact hrt

/-! Invariant preservation, one lemma per engine operation. -/

/-- The state startGame writes satisfies the invariant. -/
theorem inv_initWorld (roomId wordPairId : String) (db : List DbPlayer)
    (flips : List Bool) : Inv (initWorld roomId wordPairId db flips) := by
  refine ⟨?_, ?_, ?_⟩
  · intro p hp
    simp [initWorld] at hp
  · intro _ p _ hmem
    simp [initWorld] at hmem
  · intro hph
    simp [initWorld] at hph

/-- A state just advanced by startNextRound satisfies the invariant,
provided the eliminated ids hold no active row of the database it read. -/
theorem inv_advanced (state1 : GameState) (db1 : List DbPlayer) (wp : String)
    (flips : List Bool) (g : GameState)
    (hg : startNextRoundWrite state1 db1 (some wp) flips = some g)
    (hElim : ∀ p ∈ state1.eliminatedPlayers, p ∉ activeIds db1) :
    Inv ⟨g, db1⟩ := by
  simp only [startNextRoundWrite, Option.some.injEq] at hg
  subst hg
  refine ⟨hElim, ?_, ?_⟩
  · intro _ p hp hmem
    have hpa : p ∈ activeIds db1 :=
      ((jsRandomSort_perm flips (dbActive db1)).map DbPlayer.id).mem_iff.mp hp
    exact hElim p hmem hpa
  · intro hph
    exact absurd rfl hph

/-- submitClue preserves the invariant. -/
theorem inv_submitClue (state : GameState) (db : List DbPlayer)
    (pid content : String) (rex : Bool) (nm : Option String) (now : Nat)
    (hI : Inv ⟨state, db⟩) :
    Inv ⟨(submitClue state pid content rex nm now).1, db⟩ := by
  obtain ⟨h1, h2, h3⟩ := hI
  unfold submitClue
  cases nm with
  | none => split_ifs <;> exact ⟨h1, h2, h3⟩
  | some name =>
    dsimp only
    split_ifs with g1 g2 g3 g4
    · exact ⟨h1, h2, h3⟩
    · exact ⟨h1, h2, h3⟩
    · exact ⟨h1, h2, h3⟩
    · refine ⟨h1, ?_, ?_⟩
      · intro hph
        simp at hph
      · intro _
        exact g4
    · refine ⟨h1, ?_, ?_⟩
      · intro _ p hp
        exact h2 (not_not.mp g1) p hp
      · intro hph
        exact absurd hph g1

/-- submitVote preserves the invariant. -/
theorem inv_submitVote (state : GameState) (db : List DbPlayer)
    (voterId targetId : String) (rex : Bool) (hI : Inv ⟨state, db⟩) :
    Inv ⟨(submitVote state voterId targetId rex).1, db⟩ := by
  obtain ⟨h1, h2, h3⟩ := hI
  unfold submitVote
  split_ifs <;> exact ⟨h1, h2, h3⟩

/-- Deactivating a database row (a player leaving over HTTP) preserves
the invariant. -/
theorem inv_leave (state : GameState) (db : List DbPlayer) (pid : String)
    (hI : Inv ⟨state, db⟩) : Inv ⟨state, dbSetInactive db pid⟩ :=
  ⟨fun p hp hpa => hI.1 p hp (activeIds_setInactive db pid p hpa).1,
    hI.2.1, hI.2.2⟩

/-- resolveVotes preserves the invariant (under the socket layer's
guarantee that it runs in phase VOTING). -/
theorem inv_resolveVotes (state : GameState) (db : List DbPlayer)
    (wp : Option String) (flips : List Bool) (out : ResolveOutcome)
    (g : GameState) (hphase : state.phase = Phase.VOTING)
    (hok : resolveVotes state db wp flips = Except.ok out)
    (hst : out.stored = some g) (hI : Inv ⟨state, db⟩) :
    Inv ⟨g, out.db⟩ := by
  obtain ⟨h1, h2, h3⟩ := hI
  have hnotH : state.phase ≠ Phase.HINTING := by simp [hphase]
  unfold resolveVotes at hok
  by_cases htie : (topTargets state.votes).length > 1
  · rw [if_pos htie] at hok
    injection hok with hok
    subst hok
    dsimp only at hst
    injection hst with hst
    cases wp with
    | none =>
      rw [← hst]
      exact ⟨h1, h2, h3⟩
    | some w =>
      have hg : startNextRoundWrite state db (some w) flips = some g := by
        rw [← hst]
        rfl
      exact inv_advanced state db w flips g hg h1
  · rw [if_neg htie] at hok
    cases hhead : (topTargets state.votes).head? with
    | none =>
      rw [hhead] at hok
      simp at hok
    | some t =>
      rw [hhead] at hok
      dsimp only at hok
      cases hfind : dbFind db t with
      | none =>
        rw [hfind] at hok
        simp at hok
      | some pl =>
        rw [hfind] at hok
        dsimp only at hok
        have hE : ∀ p ∈ state.eliminatedPlayers ++ [t],
            p ∉ activeIds (dbSetInactive db t) := by
          intro p hp hpa
          obtain ⟨hpa', hpt⟩ := activeIds_setInactive db t p hpa
          rcases List.mem_append.mp hp with hpe | hpt'
          · exact h1 p hpe hpa'
          · simp at hpt'
            exact hpt hpt'
        by_cases hwh : (pl.role == some PlayerRole.WHITE_HAT) = true
        · rw [if_pos hwh] at hok
          injection hok with hok
          subst hok
          dsimp only at hst
          injection hst with hst
          subst hst
          refine ⟨hE, ?_, ?_⟩
          · intro hph
            simp at hph
          · intro _
            exact h3 hnotH
        · rw [if_neg hwh] at hok
          by_cases hgo :
              (checkWinConditions (dbActive (dbSetInactive db t))).gameOver = true
          · rw [if_pos hgo] at hok
            injection hok with hok
            subst hok
            dsimp only at hst
            cases hst
          · rw [if_neg hgo] at hok
            injection hok with hok
            subst hok
            dsimp only at hst
            injection hst with hst
            cases wp with
            | none =>
              rw [← hst]
              refine ⟨?_, ?_, ?_⟩
              · intro p hp hpa
                exact h1 p hp (activeIds_setInactive db t p hpa).1
              · intro hph
                exact absurd hph hnotH
              · intro _
                exact h3 hnotH
            | some w =>
              have hg : startNextRoundWrite
                  { state with eliminatedPlayers := state.eliminatedPlayers ++ [t] }
                  (dbSetInactive db t) (some w) flips = some g := by
                rw [← hst]
                rfl
              exact inv_advanced _ _ w flips g hg hE

/-- submitWhiteHatGuess preserves the invariant. -/
theorem inv_submitWhiteHatGuess (state : GameState) (db : List DbPlayer)
    (wA : Option String) (gs : String) (wp : Option String) (flips : List Bool)
    (g1 : GameState)
    (hst : (submitWhiteHatGuess state db wA gs wp flips).stored = some g1)
    (hI : Inv ⟨state, db⟩) :
    Inv ⟨g1, (submitWhiteHatGuess state db wA gs wp flips).db⟩ := by
  obtain ⟨h1, h2, h3⟩ := hI
  unfold submitWhiteHatGuess at hst ⊢
  by_cases hph : state.phase ≠ Phase.GUESSING
  · rw [if_pos hph] at hst ⊢
    injection hst with hst
    subst hst
    exact ⟨h1, h2, h3⟩
  · rw [if_neg hph] at hst ⊢
    have hphase : state.phase = Phase.GUESSING := not_not.mp hph
    have hnotH : state.phase ≠ Phase.HINTING := by simp [hphase]
    cases wA with
    | none =>
      dsimp only at hst ⊢
      injection hst with hst
      subst hst
      exact ⟨h1, h2, h3⟩
    | some wA' =>
      dsimp only at hst ⊢
      by_cases hc : jsNormalize gs = jsNormalize wA'
      · rw [if_pos hc] at hst ⊢
        cases hst
      · rw [if_neg hc] at hst ⊢
        by_cases hgo : (checkWinConditions (dbActive db)).gameOver = true
        · rw [if_pos hgo] at hst ⊢
          cases hst
        · rw [if_neg hgo] at hst ⊢
          injection hst with hst
          cases wp with
          | none =>
            rw [← hst]
            exact ⟨h1, h2, h3⟩
          | some w =>
            have hg : startNextRoundWrite state db (some w) flips = some g1 := by
              rw [← hst]
              rfl
            exact inv_advanced state db w flips g1 hg h1

/-- Every reachable world satisfies the invariant. -/
theorem reachable_inv (w : World) (hw : Reachable w) : Inv w := by
  induction hw with
  | init roomId wordPairId db flips => exact inv_initWorld roomId wordPairId db flips
  | step w w' _ hs ih =>
    cases hs with
    | clue pid content rex nm now => exact inv_submitClue w.game w.db pid content rex nm now ih
    | vote voterId targetId rex => exact inv_submitVote w.game w.db voterId targetId rex ih
    | resolve wp flips out g hph hok hst =>
      exact inv_resolveVotes w.game w.db wp flips out g hph hok hst ih
    | guess wA wp gs flips g1 hst =>
      exact inv_submitWhiteHatGuess w.game w.db wA gs wp flips g1 hst ih
    | leave pid => exact inv_leave w.game w.db pid ih

/-! Claim C5: the turn cursor. -/

/-- Claim C5: in every reachable game state the turn cursor never
indexes an eliminated player, and every successful submitClue strictly
increases the cursor, lands (after skipping eliminated players) either
on a non-eliminated player or past the end of the turn order — in the
latter case the phase changes to VOTING. -/
theorem c5_turn_cursor_invariant (w : World) (hw : Reachable w) :
    (∀ p, w.game.turnOrder.get? w.game.currentTurnIndex = some p →
      p ∉ w.game.eliminatedPlayers) ∧
    (∀ (pid content : String) (rex : Bool) (nm : Option String) (now : Nat),
      (submitClue w.game pid content rex nm now).2.success = true →
        w.game.currentTurnIndex <
          (submitClue w.game pid content rex nm now).1.currentTurnIndex ∧
        (w.game.turnOrder.length ≤
            (submitClue w.game pid content rex nm now).1.currentTurnIndex →
          (submitClue w.game pid content rex nm now).1.phase = Phase.VOTING) ∧
        (∀ q, (submitClue w.game pid content rex nm now).1.turnOrder.get?
            (submitClue w.game pid content rex nm now).1.currentTurnIndex = some q →
          q ∉ (submitClue w.game pid content rex nm now).1.eliminatedPlayers)) := by
  obtain ⟨h1, h2, h3⟩ := reachable_inv w hw
  constructor
  · intro p hp
    have hlt : w.game.currentTurnIndex < w.game.turnOrder.length :=
      (List.get?_eq_some.mp hp).1
    by_cases hph : w.game.phase = Phase.HINTING
    · exact h2 hph p (List.get?_mem hp)
    · have := h3 hph
      omega
  · intro pid content rex nm now hs
    obtain ⟨ha, _, _, hc, hd⟩ := submitClue_success_spec w.game pid content rex nm now hs
    exact ⟨ha, hc, hd⟩

/-- A one-player room database for the C5 witness. -/
def soloDb : List DbPlayer := [⟨"a", some PlayerRole.CIVILIAN, true⟩]

/-- Witness for C5: in the freshly started one-player world, a
successful clue submission strictly advances the cursor. -/
theorem c5_turn_cursor_invariant_witness :
    (initWorld "room0" "wp0" soloDb []).game.currentTurnIndex <
      (submitClue (initWorld "room0" "wp0" soloDb []).game "a" "hi" true
        (some "A") 0).1.currentTurnIndex :=
  ((c5_turn_cursor_invariant (initWorld "room0" "wp0" soloDb [])
      (Reachable.init "room0" "wp0" soloDb [])).2 "a" "hi" true (some "A") 0
    (by decide)).1

end WordGuesser
